import Mathlib

/-!
Verification of the archivindex repository: a shallow embedding, in Lean, of
the SURT codec, the digest engine, the CDX item-list codec, the snapshot-line
codec, and the snapshot merge loop, together with theorems settling the
frozen specification claims.

Rust strings are modelled as lists of bytes (`List Nat`, each < 256); all
index arithmetic in the source is byte based.  Rust panics (out-of-range
slices, underflowing `usize` subtraction) are modelled by an explicit
`RtPanic` error value.
-/

deriving instance DecidableEq for Except

namespace Archivindex

/-- Byte representation of an ASCII string literal. -/
def byt (s : String) : List Nat := s.toList.map Char.toNat

/-- Runtime panic marker: models a Rust panic (slice out of range or
arithmetic underflow). -/
inductive RtPanic where
  | panic
deriving DecidableEq, Repr

/-- Lexicographic strict order on byte lists: the embedding of the derived
`Ord` instance on `[u8; 20]` (and of `<` on `Sha1Digest`). -/
def bytesLt : List Nat → List Nat → Bool
  | [], [] => false
  | [], _ :: _ => true
  | _ :: _, [] => false
  | a :: as, b :: bs => if a < b then true else if b < a then false else bytesLt as bs

theorem bytesLt_irrefl (a : List Nat) : bytesLt a a = false := by
  induction a with
  | nil => rfl
  | cons x xs ih => simp [bytesLt, ih]

theorem bytesLt_trans {a b c : List Nat} (h₁ : bytesLt a b = true)
    (h₂ : bytesLt b c = true) : bytesLt a c = true := by
  induction a generalizing b c with
  | nil => cases b <;> cases c <;> simp_all [bytesLt]
  | cons x xs ih =>
    cases b with
    | nil => simp [bytesLt] at h₁
    | cons y ys =>
      cases c with
      | nil => simp [bytesLt] at h₂
      | cons z zs =>
        simp only [bytesLt] at h₁ h₂ ⊢
        rcases Nat.lt_trichotomy x y with hxy | hxy | hxy
        · rcases Nat.lt_trichotomy y z with hyz | hyz | hyz
          · simp [Nat.lt_trans hxy hyz]
          · subst hyz; simp [hxy]
          · simp [Nat.lt_asymm hyz, hyz] at h₂
        · subst hxy
          rcases Nat.lt_trichotomy x z with hxz | hxz | hxz
          · simp [hxz]
          · subst hxz
            simp only [Nat.lt_irrefl, if_false] at h₁ h₂ ⊢
            exact ih h₁ h₂
          · simp [Nat.lt_asymm hxz, hxz] at h₂
        · simp [Nat.lt_asymm hxy, hxy] at h₁

theorem bytesLt_total {a b : List Nat} (h₁ : bytesLt a b = false)
    (h₂ : bytesLt b a = false) : a = b := by
  induction a generalizing b with
  | nil =>
    cases b with
    | nil => rfl
    | cons y ys => simp [bytesLt] at h₁
  | cons x xs ih =>
    cases b with
    | nil => simp [bytesLt] at h₂
    | cons y ys =>
      simp only [bytesLt] at h₁ h₂
      rcases Nat.lt_trichotomy x y with hxy | hxy | hxy
      · simp [hxy] at h₁
      · subst hxy
        simp only [Nat.lt_irrefl, if_false] at h₁ h₂
        rw [ih h₁ h₂]
      · simp [Nat.lt_asymm hxy, hxy] at h₂

/-! ## Base32 (model of the `data_encoding::BASE32` dependency)

RFC 4648 Base32 with `=` padding and canonical (trailing-bit) checking,
which is what `data_encoding::BASE32.decode_mut` and `.encode` implement. -/

/-- Value of one Base32 symbol byte (`A`–`Z` → 0–25, `2`–`7` → 26–31). -/
def base32SymVal (c : Nat) : Option Nat :=
  if 65 ≤ c ∧ c ≤ 90 then some (c - 65)
  else if 50 ≤ c ∧ c ≤ 55 then some (c - 50 + 26)
  else none

/-- Base32 symbol byte for a 5-bit value. -/
def base32SymChar (v : Nat) : Nat :=
  if v < 26 then 65 + v else 50 + (v - 26)

/-- Big-endian base-`b` digits of `n`, padded to length `k`. -/
def natToDigits (b : Nat) (n : Nat) : Nat → List Nat
  | 0 => []
  | k + 1 => natToDigits b (n / b) k ++ [n % b]

/-- Encode one group of at most five bytes as eight Base32 symbol bytes
(with `=` padding, byte 61). -/
def base32EncodeGroup (g : List Nat) : List Nat :=
  let bits := g.length * 8
  let numSyms := (bits + 4) / 5
  let acc := g.foldl (fun a b => a * 256 + b) 0
  let shifted := acc * 2 ^ (numSyms * 5 - bits)
  (natToDigits 32 shifted numSyms).map base32SymChar ++ List.replicate (8 - numSyms) 61

/-- RFC 4648 Base32 encoding of a byte list (symbol bytes, padded):
successive groups of five bytes, the final group possibly partial. -/
def base32Encode : List Nat → List Nat
  | [] => []
  | b1 :: b2 :: b3 :: b4 :: b5 :: rest =>
    base32EncodeGroup [b1, b2, b3, b4, b5] ++ base32Encode rest
  | bs => base32EncodeGroup bs

/-- Canonical RFC 4648 Base32 decoding of a padded symbol-byte list; `none`
models a `data_encoding` decode error (wrong length, bad symbol, bad padding
or nonzero trailing bits). -/
def base32Decode (s : List Nat) : Option (List Nat) :=
  if s.length % 8 ≠ 0 then none
  else
    let padLen := (s.reverse.takeWhile (· = 61)).length
    let core := s.take (s.length - padLen)
    if padLen ≥ 8 then none
    else if ¬ (core.length % 8 = 0 ∨ core.length % 8 = 2 ∨ core.length % 8 = 4 ∨
        core.length % 8 = 5 ∨ core.length % 8 = 7) then none
    else match core.mapM base32SymVal with
      | none => none
      | some vals =>
        let acc := vals.foldl (fun a v => a * 32 + v) 0
        let totalBits := vals.length * 5
        let outLen := totalBits / 8
        let leftover := totalBits % 8
        if acc % 2 ^ leftover ≠ 0 then none
        else some (natToDigits 256 (acc / 2 ^ leftover) outLen)

/-! ## Digests (src/core/src/digest.rs and src/wbm/src/digest.rs) -/

/-- 20-byte SHA-1 digest value (`Sha1Digest(pub [u8; 20])`). -/
structure Sha1Digest where
  bytes : List Nat
deriving DecidableEq, Repr

/-- `Sha1Digest::MIN`. -/
def Sha1Digest.MIN : Sha1Digest := ⟨List.replicate 20 0⟩

/-- `Sha1Digest::MAX`. -/
def Sha1Digest.MAX : Sha1Digest := ⟨List.replicate 20 255⟩

/-- `Display for Sha1Digest`: Base32 encoding of the 20 bytes. -/
def Sha1Digest.render (d : Sha1Digest) : List Nat := base32Encode d.bytes

/-- Error type of the digest module (`digest::Error`); only the variants
reachable from string parsing are carried. -/
inductive DigestError where
  | invalid (s : List Nat)
  | invalidLength (s : List Nat)
  | decoding
deriving DecidableEq, Repr

/-- `FromStr for Sha1Digest` (both crates have the identical function): a
32-character string is Base32-decoded; 20 decoded bytes yield the digest,
any other successfully decoded count is `Error::Invalid`, a decode failure
is `Error::Decoding`, and any other length is `Error::InvalidLength`. -/
def Sha1Digest.from_str (s : List Nat) : Except DigestError Sha1Digest :=
  if s.length = 32 then
    match base32Decode s with
    | none => .error .decoding
    | some out =>
      if out.length = 20 then .ok ⟨out⟩ else .error (.invalid s)
  else .error (.invalidLength s)

/-- Tolerant digest wrapper (`Digest::Valid | Digest::Invalid`). -/
inductive Digest where
  | valid (d : Sha1Digest)
  | invalid (s : List Nat)
deriving DecidableEq, Repr

/-- `Digest::parse_str` (src/wbm/src/digest.rs) and the identical
`FromStr for Digest` (src/core/src/digest.rs): length 32 → Base32 decode;
20 bytes → `Valid`; successful decode of another count → `Invalid(input)`;
decode failure → hard `Error::Decoding`; any other length → `Invalid(input)`. -/
def Digest.parse_str (s : List Nat) : Except DigestError Digest :=
  if s.length = 32 then
    match base32Decode s with
    | none => .error .decoding
    | some out =>
      if out.length = 20 then .ok (.valid ⟨out⟩) else .ok (.invalid s)
  else .ok (.invalid s)

/-- `Display for Digest`: valid digests re-encode, invalid ones echo the
stored text. -/
def Digest.render : Digest → List Nat
  | .valid d => d.render
  | .invalid s => s

/-! ## SHA-1 (model of the `sha1` crate, RFC 3174) -/

/-- 32-bit left rotation. -/
def rotl32 (x n : Nat) : Nat := ((x <<< n) ||| (x >>> (32 - n))) % 4294967296

/-- SHA-1 padding: append `0x80`, zero bytes to 56 mod 64, and the 64-bit
big-endian bit length. -/
def sha1Pad (msg : List Nat) : List Nat :=
  msg ++ [128] ++ List.replicate ((119 - msg.length % 64) % 64) 0 ++
    natToDigits 256 (msg.length * 8 % 2 ^ 64) 8

/-- Round function. -/
def sha1F (t b c d : Nat) : Nat :=
  if t < 20 then (b &&& c) ||| ((b ^^^ 4294967295) &&& d)
  else if t < 40 then b ^^^ c ^^^ d
  else if t < 60 then (b &&& c) ||| (b &&& d) ||| (c &&& d)
  else b ^^^ c ^^^ d

/-- Round constants. -/
def sha1K (t : Nat) : Nat :=
  if t < 20 then 1518500249
  else if t < 40 then 1859775361
  else if t < 60 then 2400959708
  else 3395469782

/-- The 16 big-endian 32-bit words of a 64-byte block. -/
def sha1Words (block : List Nat) : List Nat :=
  (List.range 16).map fun t =>
    ((block.take 64).drop (4 * t)).take 4 |>.foldl (fun a b => a * 256 + b) 0

/-- Extend the 16-word schedule by `k` more words. -/
def sha1Extend (k : Nat) (w : List Nat) : List Nat :=
  match k with
  | 0 => w
  | k + 1 =>
    sha1Extend k (w ++ [rotl32 ((w.getD (w.length - 3) 0) ^^^ (w.getD (w.length - 8) 0) ^^^
      (w.getD (w.length - 14) 0) ^^^ (w.getD (w.length - 16) 0)) 1])

/-- One SHA-1 compression step over a 64-byte block. -/
def sha1Block (block : List Nat) (h : Nat × Nat × Nat × Nat × Nat) :
    Nat × Nat × Nat × Nat × Nat :=
  let w := sha1Extend 64 (sha1Words block)
  let (h0, h1, h2, h3, h4) := h
  let (a, b, c, d, e) := (List.range 80).foldl
    (fun (st : Nat × Nat × Nat × Nat × Nat) t =>
      let (a, b, c, d, e) := st
      let temp := (rotl32 a 5 + sha1F t b c d + e + sha1K t + w.getD t 0) % 4294967296
      (temp, a, rotl32 b 30, c, d))
    (h0, h1, h2, h3, h4)
  ((h0 + a) % 4294967296, (h1 + b) % 4294967296, (h2 + c) % 4294967296,
    (h3 + d) % 4294967296, (h4 + e) % 4294967296)

/-- Fold compression over successive 64-byte blocks (fuel-indexed so the
recursion is structural; the fuel is an upper bound on the block count). -/
def sha1BlocksGo : Nat → List Nat → Nat × Nat × Nat × Nat × Nat →
    Nat × Nat × Nat × Nat × Nat
  | 0, _, h => h
  | fuel + 1, bs, h =>
    if bs = [] then h
    else sha1BlocksGo fuel (bs.drop 64) (sha1Block (bs.take 64) h)

/-- Fold compression over successive 64-byte blocks. -/
def sha1Blocks (bs : List Nat) (h : Nat × Nat × Nat × Nat × Nat) :
    Nat × Nat × Nat × Nat × Nat :=
  sha1BlocksGo bs.length bs h

/-- SHA-1 digest (20 bytes) of a byte list. -/
def sha1 (msg : List Nat) : List Nat :=
  let (h0, h1, h2, h3, h4) :=
    sha1Blocks (sha1Pad msg) (1732584193, 4023233417, 2562383102, 271733878, 3285377520)
  natToDigits 256 h0 4 ++ natToDigits 256 h1 4 ++ natToDigits 256 h2 4 ++
    natToDigits 256 h3 4 ++ natToDigits 256 h4 4

/-- Incremental hashing context (`sha1::Sha1` as used here): `update` buffers
bytes, `finalize_reset` hashes the buffer and clears it. -/
structure Sha1Hasher where
  buf : List Nat
deriving DecidableEq, Repr

/-- `Digest::update`. -/
def Sha1Hasher.update (h : Sha1Hasher) (bs : List Nat) : Sha1Hasher := ⟨h.buf ++ bs⟩

/-- `finalize_reset`: the digest of everything fed so far, and the reset
context. -/
def Sha1Hasher.finalize_reset (h : Sha1Hasher) : List Nat × Sha1Hasher :=
  (sha1 h.buf, ⟨[]⟩)

/-! ## Timestamps

Modelled from the spec: the `Timestamp` type wraps the external
`chrono::DateTime<Utc>`; per §3 it is UTC at second precision whose
canonical text form is the fixed 14-digit `YYYYMMDDHHMMSS`, parsed and
printed with chrono's `%Y%m%d%H%M%S` (calendar-validated, four-digit
year). -/
structure Timestamp where
  year : Nat
  month : Nat
  day : Nat
  hour : Nat
  minute : Nat
  second : Nat
deriving DecidableEq, Repr

/-- Gregorian leap year. -/
def isLeapYear (y : Nat) : Bool := (y % 4 = 0 && y % 100 ≠ 0) || y % 400 = 0

/-- Days in a Gregorian month. -/
def daysInMonth (y m : Nat) : Nat :=
  if m = 2 then (if isLeapYear y then 29 else 28)
  else if m = 4 ∨ m = 6 ∨ m = 9 ∨ m = 11 then 30
  else 31

/-- ASCII digit value of a byte. -/
def digitVal (c : Nat) : Option Nat :=
  if 48 ≤ c ∧ c ≤ 57 then some (c - 48) else none

/-- Value of a run of ASCII digit bytes. -/
def digitsVal (s : List Nat) : Option Nat :=
  (s.mapM digitVal).map (·.foldl (fun a d => a * 10 + d) 0)

/-- `FromStr for Timestamp`: exactly 14 digits, split `%Y%m%d%H%M%S` and
calendar-validated (chrono model). -/
def Timestamp.from_str (s : List Nat) : Option Timestamp :=
  if s.length = 14 then
    match digitsVal (s.take 4), digitsVal ((s.drop 4).take 2),
        digitsVal ((s.drop 6).take 2), digitsVal ((s.drop 8).take 2),
        digitsVal ((s.drop 10).take 2), digitsVal ((s.drop 12).take 2) with
    | some y, some mo, some d, some h, some mi, some sec =>
      if 1 ≤ mo ∧ mo ≤ 12 ∧ 1 ≤ d ∧ d ≤ daysInMonth y mo ∧ h < 24 ∧ mi < 60 ∧ sec < 60
      then some ⟨y, mo, d, h, mi, sec⟩ else none
    | _, _, _, _, _, _ => none
  else none

/-- `Display for Timestamp` (`%Y%m%d%H%M%S`, zero padded). -/
def Timestamp.render (t : Timestamp) : List Nat :=
  ((natToDigits 10 t.year 4 ++ natToDigits 10 t.month 2 ++ natToDigits 10 t.day 2 ++
    natToDigits 10 t.hour 2 ++ natToDigits 10 t.minute 2 ++
    natToDigits 10 t.second 2).map (· + 48))

/-! ## Snapshot lines (src/wxj/src/lines/mod.rs)

`SnapshotLine` and its hand-scanned codec.  `closing_whitespace` is a
`Vec<char>` in the source; its characters are modelled as code points. -/

/-- `DEFAULT_CLOSING_WHITESPACE`: the fixed trailer `\r\r\n`. -/
def DEFAULT_CLOSING_WHITESPACE : List Nat := [13, 13, 10]

structure SnapshotLine where
  digest : Sha1Digest
  expected_digest : Option Sha1Digest
  closing_whitespace : Option (List Nat)
  timestamp : Option Timestamp
  url : Option (List Nat)
  content : List Nat
deriving DecidableEq, Repr

/-- `Display for SnapshotLine`: literal field order with `content` bytes
copied verbatim; `closing_whitespace` characters other than `\n`/`\r` are
silently skipped. -/
def SnapshotLine.render (l : SnapshotLine) : List Nat :=
  byt "\x7b\"digest\":\"" ++ l.digest.render ++ byt "\"," ++
  (match l.expected_digest with
   | some d => byt "\"expected_digest\":\"" ++ d.render ++ byt "\","
   | none => []) ++
  (match l.closing_whitespace with
   | some cw =>
     byt "\"closing_whitespace\":\"" ++
       cw.foldr (fun c acc =>
         (if c = 10 then byt "\\n" else if c = 13 then byt "\\r" else []) ++ acc) [] ++
       byt "\","
   | none => []) ++
  (match l.timestamp with
   | some t => byt "\"timestamp\":\"" ++ t.render ++ byt "\","
   | none => []) ++
  (match l.url with
   | some u => byt "\"url\":\"" ++ u ++ byt "\","
   | none => []) ++
  byt "\"content\":" ++ l.content ++ byt "\x7d"

/-- `SnapshotLine::new(digest, content)`: if the content already ends with
the default trailer preceded by a byte that is neither CR nor LF, no
`closing_whitespace` is recorded; otherwise the maximal trailing CR/LF run
is captured (in reversed order, as `chars().rev().take_while` collects it)
and stripped from the content.  The unchecked indexing `bytes[len-3..]` and
`bytes[len-4]` of the source panics when out of range. -/
def SnapshotLine.new (digest : Sha1Digest) (content : List Nat) :
    Except RtPanic SnapshotLine :=
  if content.length < 3 then .error .panic
  else if content.drop (content.length - 3) = DEFAULT_CLOSING_WHITESPACE then
    if content.length < 4 then .error .panic
    else
      let b4 := content.getD (content.length - 4) 0
      if b4 ≠ 13 ∧ b4 ≠ 10 then
        .ok ⟨digest, none, none, none, none, content⟩
      else
        let cw := content.reverse.takeWhile (fun c => c = 13 ∨ c = 10)
        .ok ⟨digest, none, some cw, none, none, content.take (content.length - cw.length)⟩
  else
    let cw := content.reverse.takeWhile (fun c => c = 13 ∨ c = 10)
    .ok ⟨digest, none, some cw, none, none, content.take (content.length - cw.length)⟩

/-- `SnapshotLine::validate(&self, hasher)`: feed `content`, then the
recorded closing whitespace (non-CR/LF characters silently dropped) or the
default trailer, finalize and compare against `digest`; a mismatch carries
the computed digest. -/
def SnapshotLine.validate (l : SnapshotLine) (h : Sha1Hasher) :
    Except Sha1Digest Unit × Sha1Hasher :=
  let h := h.update l.content
  let h := match l.closing_whitespace with
    | some cw =>
      h.update (cw.filterMap fun c =>
        if c = 10 then some 10 else if c = 13 then some 13 else none)
    | none => h.update DEFAULT_CLOSING_WHITESPACE
  let (bytes, h) := h.finalize_reset
  let digest : Sha1Digest := ⟨bytes⟩
  (if digest = l.digest then .ok () else .error digest, h)

/-- Error type of the line codec.  `panic` models the source's unchecked
string slicing going out of range (a Rust panic), which is distinct from
the typed `Error::InvalidLine`. -/
inductive LineError where
  | invalidLine
  | panic
deriving DecidableEq, Repr

/-- Checked model of the byte slice `line[a..b]` (out of range panics). -/
def sliceBytes (s : List Nat) (a b : Nat) : Except LineError (List Nat) :=
  if a ≤ b ∧ b ≤ s.length then .ok ((s.drop a).take (b - a)) else .error .panic

/-- Checked model of `line[idx..].starts_with(pat)`. -/
def startsWithAt (line pat : List Nat) (idx : Nat) : Except LineError Bool :=
  if idx ≤ line.length then .ok (pat.isPrefixOf (line.drop idx)) else .error .panic

/-- The closing-whitespace scan loop of `SnapshotLine::parse`: repeated
one-byte slices until an unescaped quote, collecting `\n`/`\r` escapes and
flagging anything else; running off the end of the line is an out-of-range
slice (panic). -/
def cwScan : List Nat → Nat → List Nat → Bool → Except LineError (List Nat × Nat × Bool)
  | [], _, _, _ => .error .panic
  | c :: rest, i, acc, failed =>
    if c = 34 then .ok (acc, i, failed)
    else
      let failed := if i % 2 = 0 ∧ c ≠ 92 then true else failed
      let accFailed :=
        if i % 2 = 1 then
          if c = 110 then (acc ++ [10], failed)
          else if c = 114 then (acc ++ [13], failed)
          else (acc, true)
        else (acc, failed)
      cwScan rest (i + 1) accFailed.1 accFailed.2

/-- Offset of the first quote byte, if any: the url scan loop of
`SnapshotLine::parse` stops there; with no quote left the loop's one-byte
slice run off the end of the line (panic — the `failed` flag of the source
is set too late to be observed). -/
def quoteScan : List Nat → Option Nat
  | [] => none
  | c :: rest => if c = 34 then some 0 else (quoteScan rest).map (· + 1)

/-- `SnapshotLine::parse`: fixed-field-order scan by byte-index arithmetic,
faithful to the source including the places where it slices out of range
(modelled as `panic`) and the url extraction that slices after the index
has already advanced past the closing quote. -/
def SnapshotLine.parse (line : List Nat) : Except LineError SnapshotLine := do
  let idx0 := 6 + 5
  let digestStr ← sliceBytes line idx0 (idx0 + 32)
  let digest ← match Sha1Digest.from_str digestStr with
    | .ok d => pure d
    | .error _ => throw .invalidLine
  let idx1 := idx0 + 32 + 3
  if line.length ≥ idx1 + 2 then
    let hasExp ← startsWithAt line (byt "expected_digest") idx1
    let st2 ← if hasExp then do
        let i := idx1 + 15 + 3
        let s ← sliceBytes line i (i + 32)
        let d ← match Sha1Digest.from_str s with
          | .ok d => pure d
          | .error _ => throw LineError.invalidLine
        pure (some d, i + 32 + 3)
      else pure (none, idx1)
    let hasCw ← startsWithAt line (byt "closing_whitespace") st2.2
    let st3 ← if hasCw then do
        let i := st2.2 + 18 + 3
        let scanned ← cwScan (line.drop i) 0 [] false
        if scanned.2.2 then throw LineError.invalidLine
        else pure (some scanned.1, i + scanned.2.1 + 3)
      else pure (none, st2.2)
    let hasTs ← startsWithAt line (byt "timestamp") st3.2
    let st4 ← if hasTs then do
        let i := st3.2 + 9 + 3
        let s ← sliceBytes line i (i + 14)
        let t ← match Timestamp.from_str s with
          | some t => pure t
          | none => throw LineError.invalidLine
        pure (some t, i + 14 + 3)
      else pure (none, st3.2)
    let hasUrl ← startsWithAt line (byt "url") st4.2
    let st5 ← if hasUrl then do
        let i := st4.2 + 3 + 3
        match quoteScan (line.drop i) with
        | none => throw LineError.panic
        | some n => do
          let i' := i + n + 3
          let u ← sliceBytes line i' (i' + n)
          pure (some u, i')
      else pure (none, st4.2)
    let idx6 := st5.2 + 7 + 2
    let content ← sliceBytes line idx6 (line.length - 1)
    pure ⟨digest, st2.1, st3.1, st4.1, st5.1, content⟩
  else throw .invalidLine

/-- The bytes `validate` feeds to the hasher after the content: the recorded
closing whitespace restricted to CR/LF, or the default trailer. -/
def closingBytes (l : SnapshotLine) : List Nat :=
  match l.closing_whitespace with
  | some cw =>
    cw.filterMap fun c => if c = 10 then some 10 else if c = 13 then some 13 else none
  | none => DEFAULT_CLOSING_WHITESPACE

/-- Length of the maximal trailing CR/LF run of a byte list. -/
def trailingCrlfRun (c : List Nat) : Nat :=
  (c.reverse.takeWhile (fun b => b = 13 ∨ b = 10)).length

/-- A sample valid digest (`ZHYT52YPEOCHJD5FZINSDYXGQZI22WJ4`), used for
concrete evaluations. -/
def exDigest : Sha1Digest :=
  ⟨[201, 241, 62, 235, 15, 35, 132, 116, 143, 165, 202, 27, 33, 226, 230, 134,
    81, 173, 89, 60]⟩

/-- A snapshot line with a nonempty url field. -/
def exUrlLine : SnapshotLine :=
  ⟨exDigest, none, none, none, some (byt "abc"), byt "\x7b\"a\":1\x7d"⟩

/-! ## Snapshot store output (src/wxj/src/lines/io.rs)

The writer is modelled by the digest it last wrote plus the records it has
written, in order; the bytes on disk are the rendered records, one per
line. -/

structure SnapshotWriter where
  last_written : Option Sha1Digest
  written : List SnapshotLine
deriving DecidableEq, Repr

/-- `SnapshotWriter::write_snapshot`: ignores a value whose digest equals
the last one written, otherwise writes the line. -/
def SnapshotWriter.write_snapshot (w : SnapshotWriter) (l : SnapshotLine) :
    SnapshotWriter × Bool :=
  if w.last_written = some l.digest then (w, false)
  else ({ last_written := some l.digest, written := w.written ++ [l] }, true)

/-- `SnapshotWriter::write`: same dedup check, then constructs a fresh
`SnapshotLine::new(digest, content)` (which can panic) and writes it. -/
def SnapshotWriter.write (w : SnapshotWriter) (digest : Sha1Digest)
    (content : List Nat) : Except RtPanic (SnapshotWriter × Bool) :=
  if w.last_written = some digest then .ok (w, false)
  else
    match SnapshotLine.new digest content with
    | .error e => .error e
    | .ok l => .ok ({ last_written := some digest, written := w.written ++ [l] }, true)

/-! ## The merge loop (src/wxj-cli/src/main.rs, `Command::Merge`)

Driving entries are the sorted CAS import, each given as its digest and
the bytes of its file (reads are assumed to succeed; the I/O-error branch
merely logs and skips).  The two existing stores are given as their parsed
record sequences. -/

/-- The `{"created_at":` literal prefix routed to the flat store. -/
def CREATED_AT_LIT : List Nat := byt "\x7b\"created_at\":"

/-- The `{"data":` literal prefix routed to the data store. -/
def DATA_LIT : List Nat := byt "\x7b\"data\":"

/-- ASCII whitespace, the fragment of `char::is_whitespace` relevant to the
modelled byte strings. -/
def isAsciiWs (b : Nat) : Bool := b = 9 ∨ b = 10 ∨ b = 11 ∨ b = 12 ∨ b = 13 ∨ b = 32

/-- `str::trim` (ASCII model). -/
def trimBytes (s : List Nat) : List Nat :=
  ((s.dropWhile isAsciiWs).reverse.dropWhile isAsciiWs).reverse

/-- The per-store drain loop: copy through buffered records whose digest is
strictly less than the driving digest. -/
def drainLess (d : Sha1Digest) :
    List SnapshotLine → SnapshotWriter → List SnapshotLine × SnapshotWriter
  | [], w => ([], w)
  | l :: rest, w =>
    if bytesLt l.digest.bytes d.bytes then drainLess d rest (w.write_snapshot l).1
    else (l :: rest, w)

/-- The fresh-file branch of the merge loop: read content, require a single
line, classify its shape by literal prefix and append a freshly constructed
line to the matching output (unrecognized shapes are skipped). -/
def mergeFreshEntry (digest : Sha1Digest) (content : List Nat)
    (fw dw : SnapshotWriter) : Except RtPanic (SnapshotWriter × SnapshotWriter) :=
  let trimmed := trimBytes content
  if trimmed.any (fun b => b = 10 ∨ b = 13) then .ok (fw, dw)
  else if CREATED_AT_LIT.isPrefixOf content then
    match fw.write digest content with
    | .error e => .error e
    | .ok (fw, _) => .ok (fw, dw)
  else if DATA_LIT.isPrefixOf content then
    match dw.write digest content with
    | .error e => .error e
    | .ok (dw, _) => .ok (fw, dw)
  else .ok (fw, dw)

/-- The data-store equality check and fall-through of one driving step
(reached when the flat store's next record does not match). -/
def mergeEntryData (digest : Sha1Digest) (content : List Nat)
    (flatIn dataIn : List SnapshotLine) (fw dw : SnapshotWriter) :
    Except RtPanic (List SnapshotLine × List SnapshotLine × SnapshotWriter × SnapshotWriter) :=
  match dataIn with
  | l :: rest =>
    if l.digest = digest then .ok (flatIn, rest, fw, (dw.write_snapshot l).1)
    else
      match mergeFreshEntry digest content fw dw with
      | .error e => .error e
      | .ok (fw, dw) => .ok (flatIn, dataIn, fw, dw)
  | [] =>
    match mergeFreshEntry digest content fw dw with
    | .error e => .error e
    | .ok (fw, dw) => .ok (flatIn, [], fw, dw)

/-- One driving step of the merge loop: drain both stores below the driving
digest, then copy a matching record through (flat store checked first), or
else construct a fresh line from the file's content. -/
def mergeEntry (digest : Sha1Digest) (content : List Nat)
    (flatIn dataIn : List SnapshotLine) (fw dw : SnapshotWriter) :
    Except RtPanic (List SnapshotLine × List SnapshotLine × SnapshotWriter × SnapshotWriter) :=
  let fd := drainLess digest flatIn fw
  let dd := drainLess digest dataIn dw
  match fd.1 with
  | l :: rest =>
    if l.digest = digest then .ok (rest, dd.1, (fd.2.write_snapshot l).1, dd.2)
    else mergeEntryData digest content (l :: rest) dd.1 fd.2 dd.2
  | [] => mergeEntryData digest content [] dd.1 fd.2 dd.2

/-- The driving loop followed by the final drain of both stores. -/
def mergeRun :
    List (Sha1Digest × List Nat) → List SnapshotLine → List SnapshotLine →
    SnapshotWriter → SnapshotWriter → Except RtPanic (SnapshotWriter × SnapshotWriter)
  | [], flatIn, dataIn, fw, dw =>
    .ok (flatIn.foldl (fun w l => (w.write_snapshot l).1) fw,
      dataIn.foldl (fun w l => (w.write_snapshot l).1) dw)
  | (digest, content) :: rest, flatIn, dataIn, fw, dw =>
    match mergeEntry digest content flatIn dataIn fw dw with
    | .error e => .error e
    | .ok (flatIn, dataIn, fw, dw) => mergeRun rest flatIn dataIn fw dw

/-- `Command::Merge` over parsed stores, starting from freshly created
writers. -/
def merge (entries : List (Sha1Digest × List Nat))
    (flatStore dataStore : List SnapshotLine) :
    Except RtPanic (SnapshotWriter × SnapshotWriter) :=
  mergeRun entries flatStore dataStore ⟨none, []⟩ ⟨none, []⟩

/-- Strict digest order on snapshot lines. -/
def lineLt (a b : SnapshotLine) : Prop := bytesLt a.digest.bytes b.digest.bytes = true

instance : DecidableRel lineLt := fun a b => by unfold lineLt; infer_instance

/-- Digests of a record sequence. -/
def digestsOf (ls : List SnapshotLine) : List Sha1Digest := ls.map (·.digest)

/-- Writer well-formedness: the written records are strictly ascending by
digest, and the tracked `last_written` digest bounds them all from above
(with no record yet written when it is `none`). -/
def WInv (w : SnapshotWriter) : Prop :=
  w.written.Pairwise lineLt ∧
  (w.last_written = none → w.written = []) ∧
  (∀ d, w.last_written = some d → ∀ l ∈ w.written,
    bytesLt l.digest.bytes d.bytes = true ∨ l.digest = d)

/-- The tracked digest of a writer lies strictly below the digest of every
remaining record of its store. -/
def WriterAbove (w : SnapshotWriter) (rem : List SnapshotLine) : Prop :=
  ∀ dl, w.last_written = some dl → ∀ l ∈ rem, bytesLt dl.bytes l.digest.bytes = true

/-- Concrete content routed to the data store (`{"data":1}`). -/
def c2Content : List Nat := byt "\x7b\"data\":1\x7d"

/-- The fresh line the merge constructs from `c2Content`. -/
def c2Fresh : SnapshotLine := ⟨exDigest, none, some [], none, none, c2Content⟩

/-- Example record with the minimal digest. -/
def exRecA : SnapshotLine := ⟨Sha1Digest.MIN, none, none, none, none, byt "x"⟩

/-- Example record with the sample digest (greater than the minimal one). -/
def exRecB : SnapshotLine := ⟨exDigest, none, none, none, none, byt "y"⟩

/-! ## SURT (src/core/src/surt.rs)

The scan loop is character based in the source; every character it
constrains (alphanumerics, `-`, `,`, `)`) is a single ASCII byte, so the
byte-level model coincides with it.  Label lengths are `u8` in the source;
the (unreachable for the inputs used here) 256-wrap is not modelled. -/

structure Surt where
  source : List Nat
  domain_name_part_lens : List Nat
deriving DecidableEq, Repr

inductive SurtError where
  | invalidSurt (s : List Nat)
deriving DecidableEq, Repr

/-- ASCII alphanumeric test (`char::is_ascii_alphanumeric`). -/
def isAlnum (c : Nat) : Bool :=
  (48 ≤ c ∧ c ≤ 57) ∨ (65 ≤ c ∧ c ≤ 90) ∨ (97 ≤ c ∧ c ≤ 122)

/-- The `Surt::parse_str` scan loop: alphanumeric or `-` extends the
current label length, `,` emits a label boundary, `)` emits the final label
and stops (the remainder is unconstrained), anything else rejects; reaching
the end of the input without `)` stops without emitting the pending
length. -/
def surtScan : List Nat → Nat → Option (List Nat)
  | [], _ => some []
  | c :: rest, len =>
    if isAlnum c || c = 45 then surtScan rest (len + 1)
    else if c = 44 then (surtScan rest 0).map (len :: ·)
    else if c = 41 then some [len]
    else none

/-- `Surt::parse_str`. -/
def Surt.parse_str (input : List Nat) : Except SurtError Surt :=
  match surtScan input 0 with
  | none => .error (.invalidSurt input)
  | some lens => .ok ⟨input, lens⟩

/-- `Display for Surt` / `Surt::as_str`: the verbatim stored source. -/
def Surt.render (s : Surt) : List Nat := s.source

/-- `Surt::path_start`. -/
def Surt.path_start (s : Surt) : Nat :=
  s.domain_name_part_lens.length + s.domain_name_part_lens.sum

/-- The domain-name-part iterator: a slice of the source up to (excluding)
the `)` terminator plus the iterator over the label-length table. -/
structure DomainNamePartIter where
  source : List Nat
  lens : List Nat
deriving DecidableEq, Repr

/-- `Surt::domain_name_parts()`. -/
def Surt.domain_name_parts (s : Surt) : DomainNamePartIter :=
  ⟨s.source.take (s.path_start - 1), s.domain_name_part_lens⟩

/-- `Iterator::next` for `DomainNamePartIter`: takes the next length's
worth of bytes from the front and drops exactly that many (the separator
byte is not skipped). -/
def DomainNamePartIter.next (it : DomainNamePartIter) :
    Option (List Nat × DomainNamePartIter) :=
  match it.lens with
  | [] => none
  | len :: rest => some (it.source.take len, ⟨it.source.drop len, rest⟩)

/-- `DoubleEndedIterator::next_back`: takes the last length's worth of
bytes from the back; the source is reassigned to `source[0..source.len()]`,
i.e. left unchanged. -/
def DomainNamePartIter.next_back (it : DomainNamePartIter) :
    Option (List Nat × DomainNamePartIter) :=
  match it.lens.reverse with
  | [] => none
  | len :: restRev =>
    some (it.source.drop (it.source.length - len), ⟨it.source, restRev.reverse⟩)

/-- All items produced by repeated `next`. -/
def iterFwd : List Nat → List Nat → List (List Nat)
  | _, [] => []
  | src, len :: rest => src.take len :: iterFwd (src.drop len) rest

/-- All items produced by repeated `next_back`, in iteration order, given
the reversed length table. -/
def iterRevAux : List Nat → List Nat → List (List Nat)
  | _, [] => []
  | src, len :: restRev => src.drop (src.length - len) :: iterRevAux src restRev

/-- Forward iteration of the part iterator, as a list. -/
def DomainNamePartIter.toListFwd (it : DomainNamePartIter) : List (List Nat) :=
  iterFwd it.source it.lens

/-- Back-to-front iteration of the part iterator, as a list. -/
def DomainNamePartIter.toListRev (it : DomainNamePartIter) : List (List Nat) :=
  iterRevAux it.source it.lens.reverse

/-! ## CDX item lists (src/wbm/src/cdx/item/mod.rs and
src/core/src/cdx/item/extended.rs)

A decoded CDX page is a JSON array whose elements are arrays of strings:
the header row, data rows, a zero-length sentinel and a one-element
resumption-key wrapper.  An element is modelled as `List (List Nat)` and
the page as the list of its elements.  The visitor-driven decode is run by
`serde_json`, whose `end_seq` makes any element left unconsumed after the
visitor returns a hard error; that check is part of the model.  The wbm
crate's `Surt` and `Timestamp` mirror the core crate's, which are the
embedded ones. -/

inductive MimeType where
  | textHtml
  | applicationJson
  | other (s : List Nat)
deriving DecidableEq, Repr

/-- `MimeType::parse_str` (total). -/
def MimeType.parse_str (s : List Nat) : MimeType :=
  if s = byt "text/html" then .textHtml
  else if s = byt "application/json" then .applicationJson
  else .other s

inductive StatusCode where
  | empty
  | ok
  | movedPermanently
  | found
  | seeOther
  | temporaryRedirest
  | badRequest
  | unauthorized
  | forbidden
  | notFound
  | upgradeRequired
  | tooManyRequests
  | requestHeaderFieldsTooLarge
  | internalServerError
  | badGateway
  | serviceUnavailable
  | gatewayTimeout
  | cloudflareUnknownError
  | cloudflareWebServerDown
  | cloudflareTimeout
deriving DecidableEq, Repr

/-- The derived serde deserializer for `StatusCode`: a string equal to a
variant name or to its `#[serde(alias)]` (the literal CDX column value);
anything else is an error. -/
def StatusCode.deser (s : List Nat) : Option StatusCode :=
  if s = byt "Empty" ∨ s = byt "-" then some .empty
  else if s = byt "Ok" ∨ s = byt "200" then some .ok
  else if s = byt "MovedPermanently" ∨ s = byt "301" then some .movedPermanently
  else if s = byt "Found" ∨ s = byt "302" then some .found
  else if s = byt "SeeOther" ∨ s = byt "303" then some .seeOther
  else if s = byt "TemporaryRedirest" ∨ s = byt "307" then some .temporaryRedirest
  else if s = byt "BadRequest" ∨ s = byt "400" then some .badRequest
  else if s = byt "Unauthorized" ∨ s = byt "401" then some .unauthorized
  else if s = byt "Forbidden" ∨ s = byt "403" then some .forbidden
  else if s = byt "NotFound" ∨ s = byt "404" then some .notFound
  else if s = byt "UpgradeRequired" ∨ s = byt "426" then some .upgradeRequired
  else if s = byt "TooManyRequests" ∨ s = byt "429" then some .tooManyRequests
  else if s = byt "RequestHeaderFieldsTooLarge" ∨ s = byt "431" then
    some .requestHeaderFieldsTooLarge
  else if s = byt "InternalServerError" ∨ s = byt "500" then some .internalServerError
  else if s = byt "BadGateway" ∨ s = byt "502" then some .badGateway
  else if s = byt "ServiceUnavailable" ∨ s = byt "503" then some .serviceUnavailable
  else if s = byt "GatewayTimeout" ∨ s = byt "504" then some .gatewayTimeout
  else if s = byt "CloudflareUnknownError" ∨ s = byt "520" then
    some .cloudflareUnknownError
  else if s = byt "CloudflareWebServerDown" ∨ s = byt "521" then
    some .cloudflareWebServerDown
  else if s = byt "CloudflareTimeout" ∨ s = byt "524" then some .cloudflareTimeout
  else none

/-- `u32::from_str` model: optional `+` sign, nonempty digits, value below
`2^32`. -/
def parseU32 (s : List Nat) : Option Nat :=
  let core := match s with
    | 43 :: rest => rest
    | _ => s
  match digitsVal core with
  | some v => if core ≠ [] ∧ v < 4294967296 then some v else none
  | none => none

/-- `u64::from_str` model. -/
def parseU64 (s : List Nat) : Option Nat :=
  let core := match s with
    | 43 :: rest => rest
    | _ => s
  match digitsVal core with
  | some v => if core ≠ [] ∧ v < 18446744073709551616 then some v else none
  | none => none

/-- `parse_length`: the literal `-` is an absent length, anything else must
parse as `u32`. -/
def parse_length (s : List Nat) : Option (Option Nat) :=
  if s = byt "-" then some none
  else (parseU32 s).map some

/-- A short-schema CDX row (`Item`). -/
structure Item where
  key : Surt
  timestamp : Timestamp
  original : List Nat
  mime_type : MimeType
  status_code : StatusCode
  digest : Digest
  length : Option Nat
deriving DecidableEq, Repr

/-- Decode error of the CDX codec (all serde error variants collapsed). -/
inductive DeError where
  | invalid
deriving DecidableEq, Repr

/-- The 7-column header token list. -/
def ITEM_LIST_HEADER7 : List (List Nat) :=
  [byt "urlkey", byt "timestamp", byt "original", byt "mimetype",
   byt "statuscode", byt "digest", byt "length"]

/-- The 11-column extended header token list. -/
def ITEM_LIST_HEADER11 : List (List Nat) :=
  [byt "urlkey", byt "timestamp", byt "original", byt "mimetype",
   byt "statuscode", byt "digest", byt "redirect", byt "robotflags",
   byt "length", byt "offset", byt "filename"]

/-- `ItemOrEmpty` decode (`visit_seq`): an empty element is the sentinel;
otherwise exactly seven string fields decoded in order, each failure and
any missing or trailing field a hard error. -/
def decodeItemOrEmpty (e : List (List Nat)) : Except DeError (Option Item) :=
  match e with
  | [] => .ok none
  | [k, ts, orig, mt, sc, dg, len] =>
    match Surt.parse_str k, Timestamp.from_str ts, StatusCode.deser sc,
        Digest.parse_str dg, parse_length len with
    | .ok key, some t, some s, .ok d, some ln =>
      .ok (some ⟨key, t, orig, MimeType.parse_str mt, s, d, ln⟩)
    | _, _, _, _, _ => .error .invalid
  | _ => .error .invalid

/-- An extended-schema CDX row. -/
structure ExtendedItem where
  item : Item
  redirect : Option (List Nat)
  robot_flags : Option (List Nat)
  offset : Nat
  file_name : List Nat
deriving DecidableEq, Repr

/-- The extended `ItemOrEmpty` decode: eleven string fields. -/
def decodeExtendedItemOrEmpty (e : List (List Nat)) :
    Except DeError (Option ExtendedItem) :=
  match e with
  | [] => .ok none
  | [k, ts, orig, mt, sc, dg, rd, rf, len, off, fn] =>
    match Surt.parse_str k, Timestamp.from_str ts, StatusCode.deser sc,
        Digest.parse_str dg, parse_length len, parseU64 off with
    | .ok key, some t, some s, .ok d, some ln, some offv =>
      .ok (some ⟨⟨key, t, orig, MimeType.parse_str mt, s, d, ln⟩,
        if rd = byt "-" then none else some rd,
        if rf = byt "-" then none else some rf, offv, fn⟩)
    | _, _, _, _, _, _ => .error .invalid
  | _ => .error .invalid

/-- The row/sentinel/resume-key loop of the `ItemList` visitor, including
the `serde_json` end-of-sequence check: after the sentinel exactly one
one-element wrapper holding the key must close the array. -/
def itemListLoop : List (List (List Nat)) → List Item →
    Except DeError (List Item × Option (List Nat))
  | [], values => .ok (values, none)
  | e :: rest, values =>
    match decodeItemOrEmpty e with
    | .error err => .error err
    | .ok (some item) => itemListLoop rest (values ++ [item])
    | .ok none =>
      match rest with
      | [] => .error .invalid
      | w :: rest2 =>
        match w with
        | [k] =>
          match rest2 with
          | [] => .ok (values, some k)
          | _ :: _ => .error .invalid
        | _ => .error .invalid

/-- `Deserialize for ItemList` over the elements of the outer array. -/
def decodeItemList (input : List (List (List Nat))) :
    Except DeError (List Item × Option (List Nat)) :=
  match input with
  | [] => .ok ([], none)
  | header :: rest =>
    if header = ITEM_LIST_HEADER7 then itemListLoop rest []
    else .error .invalid

/-- The row/sentinel/resume-key loop of the `ExtendedItemList` visitor. -/
def extendedItemListLoop : List (List (List Nat)) → List ExtendedItem →
    Except DeError (List ExtendedItem × Option (List Nat))
  | [], values => .ok (values, none)
  | e :: rest, values =>
    match decodeExtendedItemOrEmpty e with
    | .error err => .error err
    | .ok (some item) => extendedItemListLoop rest (values ++ [item])
    | .ok none =>
      match rest with
      | [] => .error .invalid
      | w :: rest2 =>
        match w with
        | [k] =>
          match rest2 with
          | [] => .ok (values, some k)
          | _ :: _ => .error .invalid
        | _ => .error .invalid

/-- `Deserialize for ExtendedItemList` over the elements of the outer
array. -/
def decodeExtendedItemList (input : List (List (List Nat))) :
    Except DeError (List ExtendedItem × Option (List Nat)) :=
  match input with
  | [] => .ok ([], none)
  | header :: rest =>
    if header = ITEM_LIST_HEADER11 then extendedItemListLoop rest []
    else .error .invalid

/-- A run of data rows that all decode as items (used to quantify over the
data-row region of a page). -/
def rowsAsItems : List (List (List Nat)) → Option (List Item)
  | [] => some []
  | e :: rest =>
    match decodeItemOrEmpty e with
    | .ok (some item) => (rowsAsItems rest).map (item :: ·)
    | _ => none

/-- A concrete decodable short-schema CDX row. -/
def exRow : List (List Nat) :=
  [byt "com,example)/", byt "20240101000000", byt "https://example.com/",
   byt "text/html", byt "200", byt "ZHYT52YPEOCHJD5FZINSDYXGQZI22WJ4", byt "123"]

/-- The item `exRow` decodes to. -/
def exRowItem : Item :=
  ⟨⟨byt "com,example)/", [3, 7]⟩, ⟨2024, 1, 1, 0, 0, 0⟩,
   byt "https://example.com/", .textHtml, .ok, .valid exDigest, some 123⟩

/-! ## Helper lemmas -/

theorem write_snapshot_skip {w : SnapshotWriter} {l : SnapshotLine}
    (h : w.last_written = some l.digest) : w.write_snapshot l = (w, false) := by
  simp [SnapshotWriter.write_snapshot, h]

theorem write_snapshot_fresh {w : SnapshotWriter} {l : SnapshotLine}
    (h : w.last_written ≠ some l.digest) :
    w.write_snapshot l = (⟨some l.digest, w.written ++ [l]⟩, true) := by
  simp [SnapshotWriter.write_snapshot, h]

/-- From not-less and not-equal conclude greater (trichotomy of the byte
order, at digest level). -/
theorem dLt_of_not_lt_of_ne {a b : Sha1Digest}
    (h1 : bytesLt a.bytes b.bytes = false) (h2 : a ≠ b) :
    bytesLt b.bytes a.bytes = true := by
  cases hb : bytesLt b.bytes a.bytes with
  | true => rfl
  | false =>
    exact absurd (by cases a; cases b; simpa using bytesLt_total h1 hb) h2

/-- A fresh write onto a well-formed writer whose tracked digest does not
exceed the new record's digest preserves well-formedness. -/
theorem WInv_write {w : SnapshotWriter} {l : SnapshotLine}
    (hw : WInv w) (hne : w.last_written ≠ some l.digest)
    (hle : ∀ d, w.last_written = some d → bytesLt l.digest.bytes d.bytes = false) :
    WInv ((w.write_snapshot l).1) := by
  obtain ⟨hpw, hnone, hbound⟩ := hw
  rw [write_snapshot_fresh hne]
  have hall : ∀ x ∈ w.written, lineLt x l := by
    intro x hx
    cases hlast : w.last_written with
    | none => simp [hnone hlast] at hx
    | some d =>
      have hdl : bytesLt d.bytes l.digest.bytes = true := by
        refine dLt_of_not_lt_of_ne (hle d hlast) fun he => hne ?_
        rw [hlast, he]
      rcases hbound d hlast x hx with hxd | hxd
      · exact bytesLt_trans hxd hdl
      · unfold lineLt
        rw [hxd]
        exact hdl
  refine ⟨?_, by simp, ?_⟩
  · rw [List.pairwise_append]
    exact ⟨hpw, List.pairwise_singleton _ _, fun a ha b hb => by
      rw [List.mem_singleton] at hb; subst hb; exact hall a ha⟩
  · intro d hd x hx
    simp only at hd
    cases hd
    rw [List.mem_append, List.mem_singleton] at hx
    rcases hx with hx | hx
    · exact Or.inl (hall x hx)
    · subst hx; exact Or.inr rfl

/-- Folding writes with nondecreasing digests over a well-formed writer
preserves well-formedness (the dedup drops exactly the adjacent repeats). -/
theorem WInv_writeFold :
    ∀ (ls : List SnapshotLine) (w : SnapshotWriter), WInv w →
    ls.Chain' (fun a b => bytesLt b.digest.bytes a.digest.bytes = false) →
    (∀ d, w.last_written = some d → ∀ l, ls.head? = some l →
      bytesLt l.digest.bytes d.bytes = false) →
    WInv (ls.foldl (fun w l => (w.write_snapshot l).1) w)
  | [], w, hw, _, _ => hw
  | l :: tl, w, hw, hchain, hhead => by
    rw [List.foldl_cons]
    rw [List.chain'_cons'] at hchain
    by_cases hskip : w.last_written = some l.digest
    · rw [write_snapshot_skip hskip]
      refine WInv_writeFold tl w hw hchain.2 ?_
      intro d hd l' hl'
      rw [hd] at hskip
      cases hskip
      exact hchain.1 l' hl'
    · refine WInv_writeFold tl _ (WInv_write hw hskip fun d hd => hhead d hd l rfl) hchain.2 ?_
      intro d hd l' hl'
      rw [write_snapshot_fresh hskip] at hd
      simp only at hd
      cases hd
      exact hchain.1 l' hl'

/-- Draining records strictly below `d` copies through exactly the maximal
such prefix, preserving sortedness and the writer bound. -/
theorem drainLess_spec :
    ∀ (rem : List SnapshotLine) (w : SnapshotWriter) (d : Sha1Digest),
    rem.Pairwise lineLt → WriterAbove w rem →
    ∃ P, rem = P ++ (drainLess d rem w).1 ∧
      (drainLess d rem w).2.written = w.written ++ P ∧
      (∀ l ∈ P, bytesLt l.digest.bytes d.bytes = true) ∧
      (drainLess d rem w).1.Pairwise lineLt ∧
      WriterAbove (drainLess d rem w).2 (drainLess d rem w).1 ∧
      (∀ l, (drainLess d rem w).1.head? = some l → bytesLt l.digest.bytes d.bytes = false)
  | [], w, d, _, habove => by
    refine ⟨[], by simp [drainLess], by simp [drainLess], by simp, ?_, ?_, ?_⟩
    · simp [drainLess]
    · simpa [drainLess] using habove
    · simp [drainLess]
  | l :: rest, w, d, hpar, habove => by
    rw [List.pairwise_cons] at hpar
    by_cases hlt : bytesLt l.digest.bytes d.bytes = true
    · have hne : w.last_written ≠ some l.digest := by
        intro he
        have h := habove l.digest he l (by simp)
        rw [bytesLt_irrefl] at h
        exact absurd h (by simp)
      have hw1 : (w.write_snapshot l).1 = ⟨some l.digest, w.written ++ [l]⟩ := by
        rw [write_snapshot_fresh hne]
      have habove1 : WriterAbove (w.write_snapshot l).1 rest := by
        intro dl hdl x hx
        rw [hw1] at hdl
        simp only at hdl
        cases hdl
        exact hpar.1 x hx
      obtain ⟨P, h1, h2, h3, h4, h5, h6⟩ :=
        drainLess_spec rest ((w.write_snapshot l).1) d hpar.2 habove1
      have hred :
          drainLess d (l :: rest) w = drainLess d rest ((w.write_snapshot l).1) := by
        simp [drainLess, hlt]
      refine ⟨l :: P, ?_, ?_, ?_, ?_, ?_, ?_⟩
      · rw [hred, List.cons_append, ← h1]
      · rw [hred, h2, hw1]
        simp
      · intro x hx
        rcases List.mem_cons.mp hx with hx | hx
        · subst hx; exact hlt
        · exact h3 x hx
      · rw [hred]; exact h4
      · rw [hred]; exact h5
      · rw [hred]; exact h6
    · have hlt' : bytesLt l.digest.bytes d.bytes = false := by
        cases h : bytesLt l.digest.bytes d.bytes
        · rfl
        · exact absurd h hlt
      have hred : drainLess d (l :: rest) w = (l :: rest, w) := by
        simp [drainLess, hlt']
      refine ⟨[], ?_, ?_, by simp, ?_, ?_, ?_⟩ <;> rw [hred]
      · simp
      · simp
      · exact List.pairwise_cons.mpr hpar
      · exact habove
      · intro x hx
        simp only [List.head?_cons, Option.some.injEq] at hx
        subst hx
        exact hlt'

/-- The final drain writes every remaining record through, in order. -/
theorem drainAll_spec :
    ∀ (rem : List SnapshotLine) (w : SnapshotWriter),
    rem.Pairwise lineLt → WriterAbove w rem →
    (rem.foldl (fun w l => (w.write_snapshot l).1) w).written = w.written ++ rem
  | [], w, _, _ => by simp
  | l :: rest, w, hpar, habove => by
    rw [List.pairwise_cons] at hpar
    have hne : w.last_written ≠ some l.digest := by
      intro he
      have h := habove l.digest he l (by simp)
      rw [bytesLt_irrefl] at h
      exact absurd h (by simp)
    have hw1 : (w.write_snapshot l).1 = ⟨some l.digest, w.written ++ [l]⟩ := by
      rw [write_snapshot_fresh hne]
    have habove1 : WriterAbove (w.write_snapshot l).1 rest := by
      intro dl hdl x hx
      rw [hw1] at hdl
      simp only at hdl
      cases hdl
      exact hpar.1 x hx
    rw [List.foldl_cons, drainAll_spec rest _ hpar.2 habove1, hw1]
    simp

/-- A digest strictly above `d` that occurs in `P ++ rem'`, where every
record of `P` has digest at most `d`, occurs in `rem'`. -/
theorem mem_digests_of_suffix {P rem' : List SnapshotLine} {d d' : Sha1Digest}
    (hP : ∀ l ∈ P, bytesLt l.digest.bytes d.bytes = true ∨ l.digest = d)
    (hlt : bytesLt d.bytes d'.bytes = true)
    (hmem : d' ∈ digestsOf (P ++ rem')) : d' ∈ digestsOf rem' := by
  unfold digestsOf at hmem ⊢
  rw [List.map_append, List.mem_append] at hmem
  rcases hmem with hmem | hmem
  · exfalso
    rw [List.mem_map] at hmem
    obtain ⟨l, hl, hld⟩ := hmem
    rcases hP l hl with h | h
    · rw [hld] at h
      have h2 := bytesLt_trans hlt h
      rw [bytesLt_irrefl] at h2
      exact absurd h2 (by simp)
    · rw [hld] at h
      rw [h, bytesLt_irrefl] at hlt
      exact absurd hlt (by simp)
  · exact hmem

/-- A digest that occurs in `P ++ rem'` with every record of `P` strictly
below it occurs in `rem'`. -/
theorem mem_digests_of_suffix_self {P rem' : List SnapshotLine} {d : Sha1Digest}
    (hP : ∀ l ∈ P, bytesLt l.digest.bytes d.bytes = true)
    (hmem : d ∈ digestsOf (P ++ rem')) : d ∈ digestsOf rem' := by
  unfold digestsOf at hmem ⊢
  rw [List.map_append, List.mem_append] at hmem
  rcases hmem with hmem | hmem
  · exfalso
    rw [List.mem_map] at hmem
    obtain ⟨l, hl, hld⟩ := hmem
    have h := hP l hl
    rw [hld, bytesLt_irrefl] at h
    exact absurd h (by simp)
  · exact hmem

/-- In a sorted store whose head is not below `d`, an occurrence of `d`
must be at the head. -/
theorem head_digest_eq {rem' : List SnapshotLine} {d : Sha1Digest}
    (hpar : rem'.Pairwise lineLt)
    (hhead : ∀ l, rem'.head? = some l → bytesLt l.digest.bytes d.bytes = false)
    (hmem : d ∈ digestsOf rem') :
    ∃ l rest, rem' = l :: rest ∧ l.digest = d := by
  cases rem' with
  | nil => simp [digestsOf] at hmem
  | cons l rest =>
    refine ⟨l, rest, rfl, ?_⟩
    by_contra hne
    rw [List.pairwise_cons] at hpar
    unfold digestsOf at hmem
    rw [List.map_cons, List.mem_cons] at hmem
    rcases hmem with hmem | hmem
    · exact hne hmem.symm
    · rw [List.mem_map] at hmem
      obtain ⟨x, hx, hxd⟩ := hmem
      have hlx := hpar.1 x hx
      unfold lineLt at hlx
      rw [hxd] at hlx
      have hhd := hhead l rfl
      rw [hlx] at hhd
      exact absurd hhd (by simp)

/-- When the driving digest occurs in the drained data store, the
data-store check consumes exactly its head record. -/
theorem mergeEntryData_spec
    (d : Sha1Digest) (c : List Nat) (F1 D1 : List SnapshotLine)
    (wf1 wd1 : SnapshotWriter)
    (hd4 : D1.Pairwise lineLt)
    (hd5 : WriterAbove wd1 D1)
    (hd6 : ∀ l, D1.head? = some l → bytesLt l.digest.bytes d.bytes = false)
    (hmem : d ∈ digestsOf D1) :
    ∃ restd ld, D1 = ld :: restd ∧ ld.digest = d ∧
      mergeEntryData d c F1 D1 wf1 wd1 = .ok (F1, restd, wf1, (wd1.write_snapshot ld).1) ∧
      ((wd1.write_snapshot ld).1).written = wd1.written ++ [ld] ∧
      restd.Pairwise lineLt ∧
      WriterAbove ((wd1.write_snapshot ld).1) restd := by
  obtain ⟨ld, restd, hD1, hldd⟩ := head_digest_eq hd4 hd6 hmem
  have hne : wd1.last_written ≠ some ld.digest := by
    intro he
    have h := hd5 ld.digest he ld (by rw [hD1]; simp)
    rw [bytesLt_irrefl] at h
    exact absurd h (by simp)
  have hw2 : (wd1.write_snapshot ld).1 = ⟨some ld.digest, wd1.written ++ [ld]⟩ := by
    rw [write_snapshot_fresh hne]
  subst hD1
  rw [List.pairwise_cons] at hd4
  refine ⟨restd, ld, rfl, hldd, ?_, ?_, hd4.2, ?_⟩
  · simp only [mergeEntryData]
    simp [hldd]
  · rw [hw2]
  · intro dl hdl x hx
    rw [hw2] at hdl
    simp only at hdl
    cases hdl
    exact hd4.1 x hx

/-- One merge step, when the driving digest already occurs in one of the
stores: a record with that digest is copied through (flat store first), no
fresh line is constructed, and both streams advance by a prefix of records
with digest at most the driving digest. -/
theorem mergeEntry_spec
    (d : Sha1Digest) (c : List Nat) (flatRem dataRem : List SnapshotLine)
    (fw dw : SnapshotWriter)
    (hfp : flatRem.Pairwise lineLt) (hdp : dataRem.Pairwise lineLt)
    (hfa : WriterAbove fw flatRem) (hda : WriterAbove dw dataRem)
    (hmem : d ∈ digestsOf flatRem ∨ d ∈ digestsOf dataRem) :
    ∃ flatRem' dataRem' fw' dw' Pf Pd,
      mergeEntry d c flatRem dataRem fw dw = .ok (flatRem', dataRem', fw', dw') ∧
      fw'.written ++ flatRem' = fw.written ++ flatRem ∧
      dw'.written ++ dataRem' = dw.written ++ dataRem ∧
      flatRem = Pf ++ flatRem' ∧ dataRem = Pd ++ dataRem' ∧
      (∀ l ∈ Pf, bytesLt l.digest.bytes d.bytes = true ∨ l.digest = d) ∧
      (∀ l ∈ Pd, bytesLt l.digest.bytes d.bytes = true ∨ l.digest = d) ∧
      flatRem'.Pairwise lineLt ∧ dataRem'.Pairwise lineLt ∧
      WriterAbove fw' flatRem' ∧ WriterAbove dw' dataRem' := by
  obtain ⟨Pf0, hf1, hf2, hf3, hf4, hf5, hf6⟩ := drainLess_spec flatRem fw d hfp hfa
  obtain ⟨Pd0, hd1, hd2, hd3, hd4, hd5, hd6⟩ := drainLess_spec dataRem dw d hdp hda
  cases hF1 : (drainLess d flatRem fw).1 with
  | cons l rest =>
    rw [hF1] at hf1 hf4 hf5 hf6
    by_cases hld : l.digest = d
    · have hne : (drainLess d flatRem fw).2.last_written ≠ some l.digest := by
        intro he
        have h := hf5 l.digest he l (by simp)
        rw [bytesLt_irrefl] at h
        exact absurd h (by simp)
      have hw2 : ((drainLess d flatRem fw).2.write_snapshot l).1 =
          ⟨some l.digest, (drainLess d flatRem fw).2.written ++ [l]⟩ := by
        rw [write_snapshot_fresh hne]
      rw [List.pairwise_cons] at hf4
      refine ⟨rest, (drainLess d dataRem dw).1,
        ((drainLess d flatRem fw).2.write_snapshot l).1, (drainLess d dataRem dw).2,
        Pf0 ++ [l], Pd0,
        ?_, ?_, ?_, ?_, hd1, ?_, fun x hx => Or.inl (hd3 x hx),
        hf4.2, hd4, ?_, hd5⟩
      · simp only [mergeEntry]
        rw [hF1]
        simp [hld]
      · rw [hw2]
        simp only
        rw [hf2, hf1]
        simp [List.append_assoc]
      · rw [hd2]
        conv_rhs => rw [hd1]
        rw [List.append_assoc]
      · rw [hf1]
        simp
      · intro x hx
        rcases List.mem_append.mp hx with hx | hx
        · exact Or.inl (hf3 x hx)
        · rw [List.mem_singleton] at hx
          subst hx
          exact Or.inr hld
      · intro dl hdl x hx
        rw [hw2] at hdl
        simp only at hdl
        cases hdl
        exact hf4.1 x hx
    · have hmemD : d ∈ digestsOf (drainLess d dataRem dw).1 := by
        rcases hmem with hm | hm
        · exfalso
          rw [hf1] at hm
          have hm2 := mem_digests_of_suffix_self hf3 hm
          obtain ⟨l', rest', heq, hld'⟩ := head_digest_eq hf4 hf6 hm2
          injection heq with he1 he2
          subst he1
          exact hld hld'
        · exact mem_digests_of_suffix_self hd3 (hd1 ▸ hm)
      obtain ⟨restd, ld, hD1, hldd, hcomp2, hwr2, hpair2, habove2⟩ :=
        mergeEntryData_spec d c (l :: rest) (drainLess d dataRem dw).1
          (drainLess d flatRem fw).2 (drainLess d dataRem dw).2 hd4 hd5 hd6 hmemD
      refine ⟨l :: rest, restd, (drainLess d flatRem fw).2,
        ((drainLess d dataRem dw).2.write_snapshot ld).1, Pf0, Pd0 ++ [ld],
        ?_, ?_, ?_, hf1, ?_, fun x hx => Or.inl (hf3 x hx), ?_,
        hf4, hpair2, ?_, habove2⟩
      · simp only [mergeEntry]
        rw [hF1]
        simp only [hld, if_false, ite_false]
        exact hcomp2
      · rw [hf2, hf1]
        simp [List.append_assoc]
      · rw [hwr2]
        rw [hd2, hd1, hD1]
        simp [List.append_assoc]
      · rw [hd1, hD1]
        simp
      · intro x hx
        rcases List.mem_append.mp hx with hx | hx
        · exact Or.inl (hd3 x hx)
        · rw [List.mem_singleton] at hx
          subst hx
          exact Or.inr hldd
      · exact hf5
  | nil =>
    rw [hF1] at hf1 hf5
    have hmemD : d ∈ digestsOf (drainLess d dataRem dw).1 := by
      rcases hmem with hm | hm
      · exfalso
        rw [hf1] at hm
        have hm2 := mem_digests_of_suffix_self hf3 hm
        simp [digestsOf] at hm2
      · exact mem_digests_of_suffix_self hd3 (hd1 ▸ hm)
    obtain ⟨restd, ld, hD1, hldd, hcomp2, hwr2, hpair2, habove2⟩ :=
      mergeEntryData_spec d c [] (drainLess d dataRem dw).1
        (drainLess d flatRem fw).2 (drainLess d dataRem dw).2 hd4 hd5 hd6 hmemD
    refine ⟨[], restd, (drainLess d flatRem fw).2,
      ((drainLess d dataRem dw).2.write_snapshot ld).1, Pf0, Pd0 ++ [ld],
      ?_, ?_, ?_, ?_, ?_, fun x hx => Or.inl (hf3 x hx), ?_,
      List.Pairwise.nil, hpair2, hf5, habove2⟩
    · simp only [mergeEntry]
      rw [hF1]
      exact hcomp2
    · rw [hf2, hf1]
      simp
    · rw [hwr2]
      rw [hd2, hd1, hD1]
      simp [List.append_assoc]
    · rw [hf1]
    · rw [hd1, hD1]
      simp
    · intro x hx
      rcases List.mem_append.mp hx with hx | hx
      · exact Or.inl (hd3 x hx)
      · rw [List.mem_singleton] at hx
        subst hx
        exact Or.inr hldd

/-- The full merge loop under strictly ascending driving digests that all
occur in one of the stores: every record is copied through in order and no
fresh line is constructed. -/
theorem mergeRun_spec :
    ∀ (entries : List (Sha1Digest × List Nat)) (flatRem dataRem : List SnapshotLine)
      (fw dw : SnapshotWriter),
    flatRem.Pairwise lineLt → dataRem.Pairwise lineLt →
    WriterAbove fw flatRem → WriterAbove dw dataRem →
    (entries.map Prod.fst).Pairwise (fun a b => bytesLt a.bytes b.bytes = true) →
    (∀ e ∈ entries, e.1 ∈ digestsOf flatRem ∨ e.1 ∈ digestsOf dataRem) →
    ∃ fw' dw', mergeRun entries flatRem dataRem fw dw = .ok (fw', dw') ∧
      fw'.written = fw.written ++ flatRem ∧ dw'.written = dw.written ++ dataRem
  | [], flatRem, dataRem, fw, dw, hfp, hdp, hfa, hda, _, _ => by
    refine ⟨_, _, rfl, ?_, ?_⟩
    · exact drainAll_spec flatRem fw hfp hfa
    · exact drainAll_spec dataRem dw hdp hda
  | (d, c) :: rest, flatRem, dataRem, fw, dw, hfp, hdp, hfa, hda, hasc, hmem => by
    obtain ⟨flatRem', dataRem', fw1, dw1, Pf, Pd, hcomp, hfe, hde, hfs, hds,
        hPf, hPd, hfp', hdp', hfa', hda'⟩ :=
      mergeEntry_spec d c flatRem dataRem fw dw hfp hdp hfa hda
        (hmem (d, c) (by simp))
    rw [List.map_cons, List.pairwise_cons] at hasc
    have hmem' : ∀ e ∈ rest, e.1 ∈ digestsOf flatRem' ∨ e.1 ∈ digestsOf dataRem' := by
      intro e he
      have hlt : bytesLt d.bytes e.1.bytes = true :=
        hasc.1 e.1 (List.mem_map.mpr ⟨e, he, rfl⟩)
      rcases hmem e (List.mem_cons_of_mem _ he) with hm | hm
      · exact Or.inl (mem_digests_of_suffix hPf hlt (hfs ▸ hm))
      · exact Or.inr (mem_digests_of_suffix hPd hlt (hds ▸ hm))
    obtain ⟨fw2, dw2, hrun, hfw2, hdw2⟩ :=
      mergeRun_spec rest flatRem' dataRem' fw1 dw1 hfp' hdp' hfa' hda' hasc.2 hmem'
    refine ⟨fw2, dw2, ?_, ?_, ?_⟩
    · simp only [mergeRun]
      rw [hcomp]
      exact hrun
    · rw [hfw2]
      exact hfe
    · rw [hdw2]
      exact hde

/-- Running the item-list loop over a run of successfully decoding data
rows accumulates exactly those items and continues with the remaining
elements. -/
theorem itemListLoop_append :
    ∀ (rows suffix : List (List (List Nat))) (acc items : List Item),
    rowsAsItems rows = some items →
    itemListLoop (rows ++ suffix) acc = itemListLoop suffix (acc ++ items)
  | [], suffix, acc, items, h => by
    simp only [rowsAsItems, Option.some.injEq] at h
    subst h
    simp
  | e :: rest, suffix, acc, items, h => by
    cases hd : decodeItemOrEmpty e with
    | error err =>
      simp only [rowsAsItems, hd] at h
      exact Option.noConfusion h
    | ok o =>
      cases o with
      | none =>
        simp only [rowsAsItems, hd] at h
        exact Option.noConfusion h
      | some item =>
        simp only [rowsAsItems, hd, Option.map_eq_some'] at h
        obtain ⟨items', h1, h2⟩ := h
        subst h2
        rw [List.cons_append]
        simp only [itemListLoop, hd]
        rw [itemListLoop_append rest suffix (acc ++ [item]) items' h1]
        simp [List.append_assoc]

/-! ## Claim theorems -/

/-- C1 (counterexample): the 32-character string `"000…0"` is not in the
Base32 alphabet, and `Digest::parse_str` returns the hard error
`Error::Decoding` for it rather than `Invalid` — so parsing is not total
over arbitrary input strings. -/
theorem C1_digest_parse_counterexample :
    Digest.parse_str (byt "00000000000000000000000000000000") =
      .error .decoding := by decide

/-- C1 (amended): digest parsing is tolerant of length and of re-encoding
mismatches but not of Base32 decode failures: any string whose length is
not 32 parses to `Invalid`; a 32-character string that Base32-decodes to 20
bytes parses to `Valid` of those bytes; a 32-character string that decodes
successfully to any other byte count parses to `Invalid`; and a
32-character string whose Base32 decode fails is a hard `Error::Decoding`. -/
theorem C1_digest_parse_amended :
    (∀ s : List Nat, s.length ≠ 32 → Digest.parse_str s = .ok (.invalid s)) ∧
    (∀ s out, s.length = 32 → base32Decode s = some out → out.length = 20 →
      Digest.parse_str s = .ok (.valid ⟨out⟩)) ∧
    (∀ s out, s.length = 32 → base32Decode s = some out → out.length ≠ 20 →
      Digest.parse_str s = .ok (.invalid s)) ∧
    (∀ s, s.length = 32 → base32Decode s = none →
      Digest.parse_str s = .error .decoding) := by
  refine ⟨?_, ?_, ?_, ?_⟩
  · intro s h
    simp [Digest.parse_str, h]
  · intro s out h1 h2 h3
    simp [Digest.parse_str, h1, h2, h3]
  · intro s out h1 h2 h3
    simp [Digest.parse_str, h1, h2, h3]
  · intro s h1 h2
    simp [Digest.parse_str, h1, h2]

/-- C1 (witness for the amended theorem): a 31-character string is
`Invalid`, a canonical digest string is `Valid`, a padded 32-character
string is `Invalid`, and the all-zeros string is a hard decode error. -/
theorem C1_digest_parse_amended_witness :
    Digest.parse_str (byt "HYT52YPEOCHJD5FZINSDYXGQZI22WJ4") =
      .ok (.invalid (byt "HYT52YPEOCHJD5FZINSDYXGQZI22WJ4")) ∧
    Digest.parse_str (byt "ZHYT52YPEOCHJD5FZINSDYXGQZI22WJ4") =
      .ok (.valid exDigest) ∧
    Digest.parse_str (byt "AAAAAAAAAAAAAAAAAAAAAAAAAA======") =
      .ok (.invalid (byt "AAAAAAAAAAAAAAAAAAAAAAAAAA======")) ∧
    Digest.parse_str (byt "00000000000000000000000000000000") =
      .error .decoding :=
  ⟨C1_digest_parse_amended.1 _ (by decide),
   C1_digest_parse_amended.2.1 _ exDigest.bytes (by decide) (by decide) (by decide),
   C1_digest_parse_amended.2.2.1 _ (List.replicate 16 0) (by decide) (by decide) (by decide),
   C1_digest_parse_amended.2.2.2 _ (by decide) (by decide)⟩

/-- C3 (failing evaluation): round-tripping a `SnapshotLine` whose url is
`"abc"` does not reproduce the line: the url scan of `parse` advances its
index past the closing quote before slicing, so the parsed url is `"con"`
(the start of the `content` key region), contradicting
`parse(serialize(line)) == line`. -/
theorem C3_round_trip_url_bug :
    SnapshotLine.parse (SnapshotLine.render exUrlLine) =
      .ok { exUrlLine with url := some (byt "con") } ∧
    SnapshotLine.parse (SnapshotLine.render exUrlLine) ≠ .ok exUrlLine := by
  constructor <;> decide

/-- C4: `validate` with a reset hashing context computes SHA-1 over the
content bytes followed by the recorded closing-whitespace bytes (or, when
absent, the default trailer `\r\r\n`), succeeds exactly when the computed
digest equals the line's `digest` field, and returns the computed digest as
the error value on mismatch. -/
theorem C4_validate_computes_sha1 (l : SnapshotLine) :
    (l.validate ⟨[]⟩).1 =
      if (⟨sha1 (l.content ++ closingBytes l)⟩ : Sha1Digest) = l.digest then .ok ()
      else .error ⟨sha1 (l.content ++ closingBytes l)⟩ := by
  cases hcw : l.closing_whitespace <;>
    simp [SnapshotLine.validate, Sha1Hasher.update, Sha1Hasher.finalize_reset,
      closingBytes, hcw]

/-- C5 (failing evaluation): on input truncated before the closing quote of
the `url` field (and likewise of the `closing_whitespace` field), `parse`
performs an out-of-range one-byte slice and panics — the `failed` flag that
was meant to produce `Error::InvalidLine` is only consulted after the loop,
which never exits on truncated input — so `parse` is not total with a typed
error over malformed input. -/
theorem C5_parse_truncated_input_panics :
    SnapshotLine.parse
        (byt "\x7b\"digest\":\"ZHYT52YPEOCHJD5FZINSDYXGQZI22WJ4\",\"url\":\"abc") =
      .error .panic ∧
    SnapshotLine.parse
        (byt "\x7b\"digest\":\"ZHYT52YPEOCHJD5FZINSDYXGQZI22WJ4\",\"closing_whitespace\":\"\\r") =
      .error .panic := by
  constructor <;> decide

/-- C10: `SnapshotLine::new` panics on empty content (it indexes the last
three bytes unconditionally); for every content of at least 4 bytes it
returns a line, and whenever a `closing_whitespace` is recorded the line's
content is the input with its maximal trailing CR/LF run removed. -/
theorem C10_new_panics_short_trims_long :
    SnapshotLine.new Sha1Digest.MIN [] = .error .panic ∧
    (∀ (d : Sha1Digest) (c : List Nat), 4 ≤ c.length →
      ∃ l, SnapshotLine.new d c = .ok l ∧
        ∀ ws, l.closing_whitespace = some ws →
          l.content = c.take (c.length - trailingCrlfRun c)) := by
  constructor
  · decide
  · intro d c hlen
    have h3 : ¬ c.length < 3 := by omega
    have h4 : ¬ c.length < 4 := by omega
    simp only [SnapshotLine.new, h3, h4, if_false]
    by_cases hdef : c.drop (c.length - 3) = DEFAULT_CLOSING_WHITESPACE
    · rw [if_pos hdef]
      by_cases hb4 : c.getD (c.length - 4) 0 ≠ 13 ∧ c.getD (c.length - 4) 0 ≠ 10
      · rw [if_pos hb4]
        exact ⟨_, rfl, fun ws hws => by simp at hws⟩
      · rw [if_neg hb4]
        exact ⟨_, rfl, fun ws _ => rfl⟩
    · rw [if_neg hdef]
      exact ⟨_, rfl, fun ws _ => rfl⟩

/-- C10 (witness): content `"xy\r\n"` (4 bytes) yields a line whose
recorded whitespace run has been stripped from its content. -/
theorem C10_new_witness :
    4 ≤ (byt "xy\r\n").length ∧
    (∃ l, SnapshotLine.new Sha1Digest.MIN (byt "xy\r\n") = .ok l ∧
      ∀ ws, l.closing_whitespace = some ws →
        l.content = (byt "xy\r\n").take ((byt "xy\r\n").length -
          trailingCrlfRun (byt "xy\r\n"))) :=
  ⟨by decide, C10_new_panics_short_trims_long.2 Sha1Digest.MIN (byt "xy\r\n") (by decide)⟩

/-- C2 (counterexample): a CAS import may hold the same digest twice; after
the first occurrence of `exDigest` is copied through from the flat store,
the second occurrence no longer matches either store's buffered head, so
the merge re-reads the file and — because its content is `{"data":…}`
shaped — constructs a fresh line and appends it to the data output, which
therefore differs from the original (empty) data store even though every
driving digest already occurred in a store. -/
theorem C2_merge_idempotence_counterexample :
    merge [(exDigest, c2Content), (exDigest, c2Content)] [exRecB] [] =
      .ok (⟨some exDigest, [exRecB]⟩, ⟨some exDigest, [c2Fresh]⟩) ∧
    [c2Fresh] ≠ ([] : List SnapshotLine) := by
  constructor <;> decide

/-- C2 (amended): for sorted (strictly ascending) stores and a CAS import
whose digests are strictly ascending — in particular with no repeated
digest — and each already occur in one of the existing stores, the merge
succeeds, every existing record is copied through unchanged, no fresh line
is constructed, and each output store's record and line sequences are
identical to the original store's. -/
theorem C2_merge_idempotent_amended :
    ∀ (entries : List (Sha1Digest × List Nat)) (flatStore dataStore : List SnapshotLine),
    flatStore.Pairwise lineLt → dataStore.Pairwise lineLt →
    (entries.map Prod.fst).Pairwise (fun a b => bytesLt a.bytes b.bytes = true) →
    (∀ e ∈ entries, e.1 ∈ digestsOf flatStore ∨ e.1 ∈ digestsOf dataStore) →
    ∃ fw dw, merge entries flatStore dataStore = .ok (fw, dw) ∧
      fw.written = flatStore ∧ dw.written = dataStore ∧
      fw.written.map SnapshotLine.render = flatStore.map SnapshotLine.render ∧
      dw.written.map SnapshotLine.render = dataStore.map SnapshotLine.render := by
  intro entries flatStore dataStore hfp hdp hasc hmem
  obtain ⟨fw, dw, hrun, hfw, hdw⟩ :=
    mergeRun_spec entries flatStore dataStore ⟨none, []⟩ ⟨none, []⟩ hfp hdp
      (fun dl hdl => by simp at hdl) (fun dl hdl => by simp at hdl) hasc hmem
  rw [List.nil_append] at hfw hdw
  exact ⟨fw, dw, hrun, hfw, hdw, by rw [hfw], by rw [hdw]⟩

/-- C2 (witness for the amended theorem): a one-entry import whose digest
already sits in the flat store reproduces both stores exactly. -/
theorem C2_merge_idempotent_amended_witness :
    (∀ e ∈ [(Sha1Digest.MIN, byt "x")],
      e.1 ∈ digestsOf [exRecA] ∨ e.1 ∈ digestsOf []) ∧
    (∃ fw dw, merge [(Sha1Digest.MIN, byt "x")] [exRecA] [] = .ok (fw, dw) ∧
      fw.written = [exRecA] ∧ dw.written = [] ∧
      fw.written.map SnapshotLine.render = [exRecA].map SnapshotLine.render ∧
      dw.written.map SnapshotLine.render =
        ([] : List SnapshotLine).map SnapshotLine.render) :=
  ⟨by decide,
   C2_merge_idempotent_amended [(Sha1Digest.MIN, byt "x")] [exRecA] []
     (by simp) (by simp) (by simp) (by decide)⟩

/-- C9: a write whose digest equals the writer's last-written digest emits
nothing and returns `false`; any other `write_snapshot` emits exactly one
line and returns `true`; and folding a sequence of writes whose digests are
nondecreasing (adjacent repeats allowed) over a fresh writer yields an
output sequence strictly ascending by digest. -/
theorem C9_writer_adjacent_dedup :
    (∀ (w : SnapshotWriter) (l : SnapshotLine),
      (w.last_written = some l.digest → w.write_snapshot l = (w, false)) ∧
      (w.last_written ≠ some l.digest →
        w.write_snapshot l = (⟨some l.digest, w.written ++ [l]⟩, true))) ∧
    (∀ ls : List SnapshotLine,
      ls.Chain' (fun a b => bytesLt b.digest.bytes a.digest.bytes = false) →
      (ls.foldl (fun (w : SnapshotWriter) l => (w.write_snapshot l).1)
        ⟨none, []⟩).written.Pairwise lineLt) := by
  constructor
  · exact fun w l => ⟨fun h => write_snapshot_skip h, fun h => write_snapshot_fresh h⟩
  · intro ls hchain
    refine (WInv_writeFold ls ⟨none, []⟩ ⟨List.Pairwise.nil, fun _ => rfl, ?_⟩ hchain ?_).1
    · intro d hd
      simp at hd
    · intro d hd
      simp at hd

/-- C9 (witness): a repeated-digest write is dropped, a fresh write is
emitted, and the fold over `[A, A, B]` (with `A < B`) writes `[A, B]`,
strictly ascending. -/
theorem C9_writer_adjacent_dedup_witness :
    SnapshotWriter.write_snapshot ⟨some Sha1Digest.MIN, [exRecA]⟩ exRecA =
      (⟨some Sha1Digest.MIN, [exRecA]⟩, false) ∧
    SnapshotWriter.write_snapshot ⟨some Sha1Digest.MIN, [exRecA]⟩ exRecB =
      (⟨some exRecB.digest, [exRecA, exRecB]⟩, true) ∧
    ([exRecA, exRecA, exRecB].Chain'
      (fun a b => bytesLt b.digest.bytes a.digest.bytes = false)) ∧
    (([exRecA, exRecA, exRecB].foldl (fun (w : SnapshotWriter) l => (w.write_snapshot l).1)
      ⟨none, []⟩).written.Pairwise lineLt) :=
  ⟨(C9_writer_adjacent_dedup.1 _ exRecA).1 (by decide),
   by
    have h := (C9_writer_adjacent_dedup.1 ⟨some Sha1Digest.MIN, [exRecA]⟩ exRecB).2 (by decide)
    simpa using h,
   by
    rw [List.chain'_cons, List.chain'_cons]
    exact ⟨by decide, by decide, List.chain'_singleton _⟩,
   C9_writer_adjacent_dedup.2 [exRecA, exRecA, exRecB] (by
    rw [List.chain'_cons, List.chain'_cons]
    exact ⟨by decide, by decide, List.chain'_singleton _⟩)⟩

/-- C6 (failing evaluation): for the valid SURT `com,twitter)/a`, forward
iteration of `domain_name_parts()` yields `com` and then `,twitte` — the
comma separator is never skipped — and back-to-front iteration yields
`twitter` and then `ter` — the slice is never shrunk — so neither the
stored-order labels nor, in reverse, the forward canonical labels are
produced. -/
theorem C6_domain_name_parts_bug :
    Surt.parse_str (byt "com,twitter)/a") = .ok ⟨byt "com,twitter)/a", [3, 7]⟩ ∧
    (Surt.domain_name_parts ⟨byt "com,twitter)/a", [3, 7]⟩).toListFwd =
      [byt "com", byt ",twitte"] ∧
    byt ",twitte" ≠ byt "twitter" ∧
    (Surt.domain_name_parts ⟨byt "com,twitter)/a", [3, 7]⟩).toListRev =
      [byt "twitter", byt "ter"] ∧
    byt "ter" ≠ byt "com" := by
  refine ⟨?_, ?_, ?_, ?_, ?_⟩ <;> decide

/-- C7: for every string accepted by `Surt::parse_str`, re-emitting the
parsed value reproduces the input byte for byte (the verbatim source is
stored and `Display` writes it back). -/
theorem C7_surt_round_trip :
    ∀ (s : List Nat) (t : Surt), Surt.parse_str s = .ok t → t.render = s := by
  intro s t h
  unfold Surt.parse_str at h
  cases hs : surtScan s 0 with
  | none =>
    rw [hs] at h
    exact absurd h (by simp)
  | some lens =>
    rw [hs] at h
    injection h with h2
    subst h2
    rfl

/-- C7 (witness): the round trip at the spec's concrete example. -/
theorem C7_surt_round_trip_witness :
    Surt.parse_str (byt "com,twitter)/farleftwatch/status/999825423977639936") =
      .ok ⟨byt "com,twitter)/farleftwatch/status/999825423977639936", [3, 7]⟩ ∧
    Surt.render ⟨byt "com,twitter)/farleftwatch/status/999825423977639936", [3, 7]⟩ =
      byt "com,twitter)/farleftwatch/status/999825423977639936" :=
  ⟨by decide, C7_surt_round_trip _ _ (by decide)⟩

/-- C8: after the zero-length sentinel, the decode succeeds only if exactly
one more element follows, a one-element wrapper holding the resumption-key
string: a missing wrapper is a hard error, any element trailing the wrapper
is a hard error, a wrapper of any other arity is a hard error, and the
successful decode yields precisely the data rows' items and `Some(key)`;
a header-only extended-schema page followed by the sentinel and wrapper
yields zero entries and `Some(key)`. -/
theorem C8_resume_key_protocol :
    (∀ (rows : List (List (List Nat))) (items : List Item) (k : List Nat)
        (e : List (List Nat)) (rest : List (List (List Nat))) (w : List (List Nat)),
      rowsAsItems rows = some items →
      decodeItemList (ITEM_LIST_HEADER7 :: (rows ++ [[]])) = .error .invalid ∧
      decodeItemList (ITEM_LIST_HEADER7 :: (rows ++ [[], [k]] ++ e :: rest)) =
        .error .invalid ∧
      (w.length ≠ 1 →
        decodeItemList (ITEM_LIST_HEADER7 :: (rows ++ [[], w])) = .error .invalid) ∧
      decodeItemList (ITEM_LIST_HEADER7 :: (rows ++ [[], [k]])) =
        .ok (items, some k)) ∧
    (∀ k : List Nat,
      decodeExtendedItemList [ITEM_LIST_HEADER11, [], [k]] = .ok ([], some k)) := by
  constructor
  · intro rows items k e rest w h
    have hred : ∀ X, decodeItemList (ITEM_LIST_HEADER7 :: X) = itemListLoop X [] := by
      intro X
      simp [decodeItemList]
    refine ⟨?_, ?_, ?_, ?_⟩
    · rw [hred, itemListLoop_append rows _ [] items h]
      simp [itemListLoop, decodeItemOrEmpty]
    · rw [hred, List.append_assoc, itemListLoop_append rows _ [] items h]
      simp [itemListLoop, decodeItemOrEmpty]
    · intro hw
      rw [hred, itemListLoop_append rows _ [] items h]
      match w, hw with
      | [], _ => simp [itemListLoop, decodeItemOrEmpty]
      | [a], hw => exact absurd (by simp) hw
      | a :: b :: t, _ => simp [itemListLoop, decodeItemOrEmpty]
    · rw [hred, itemListLoop_append rows _ [] items h]
      simp [itemListLoop, decodeItemOrEmpty]
  · intro k
    simp [decodeExtendedItemList, extendedItemListLoop, decodeExtendedItemOrEmpty]

/-- C8 (witness): a one-row page: the missing wrapper errors, a trailing
element errors, a two-element wrapper errors, and the completed page yields
the row's item and the key. -/
theorem C8_resume_key_protocol_witness :
    rowsAsItems [exRow] = some [exRowItem] ∧
    (decodeItemList (ITEM_LIST_HEADER7 :: [exRow] ++ [[]]) = .error .invalid ∧
      decodeItemList (ITEM_LIST_HEADER7 :: [exRow] ++ [[], [byt "KEY"]] ++
        [byt "tail"] :: []) = .error .invalid ∧
      ((byt "K1" :: [byt "K2"] : List (List Nat)).length ≠ 1 →
        decodeItemList (ITEM_LIST_HEADER7 :: [exRow] ++
          [[], byt "K1" :: [byt "K2"]]) = .error .invalid) ∧
      decodeItemList (ITEM_LIST_HEADER7 :: [exRow] ++ [[], [byt "KEY"]]) =
        .ok ([exRowItem], some (byt "KEY"))) ∧
    decodeExtendedItemList [ITEM_LIST_HEADER11, [], [byt "KEY"]] =
      .ok ([], some (byt "KEY")) :=
  ⟨by decide,
   C8_resume_key_protocol.1 [exRow] [exRowItem] (byt "KEY") [byt "tail"] []
     (byt "K1" :: [byt "K2"]) (by decide),
   C8_resume_key_protocol.2 (byt "KEY")⟩

end Archivindex
